import Mathlib

/-!
Shallow embedding of the in-memory social data store (`MemStorage`) of this
repository.  JavaScript `Map<number, T>` collections are modelled as lists of
entities in insertion order: `Map.get` is `List.find?` on the id, `Map.set` is
`setById` (replace in place when the key exists, append otherwise, matching
JS `Map.set` semantics), `Map.delete` is `List.filter`, and `Map.values()`
iteration order is the list order.  `Date` timestamps are natural numbers, and
every operation that calls `new Date()` takes the current time as an explicit
`now` argument.  `Array.prototype.sort` is stable in JS, and the output of a stable sort is
uniquely determined by the comparator and the input order, so sorts are
modelled with the structural stable insertion sort `stableSort` below.
-/

/-- JS `Map.set` on a list of keyed values: replaces the entry with the given
key in place if present, otherwise appends at the end. -/
def setById (key : Nat) (v : α) (keyOf : α → Nat) : List α → List α
  | [] => [v]
  | x :: xs => if keyOf x == key then v :: xs else x :: setById key v keyOf xs

/-- Insertion step of the stable sort: the new element `x` stands for an
element that occurs earlier in the original list than everything in `l`, so it
is inserted before any element it ties with, and after the strictly smaller
ones. -/
def insertSorted (le : α → α → Bool) (x : α) : List α → List α
  | [] => [x]
  | y :: ys => if le y x && !(le x y) then y :: insertSorted le x ys else x :: y :: ys

/-- Stable sort by the comparator `le` (the model of JS `Array.prototype.sort`,
which is required to be stable). -/
def stableSort (le : α → α → Bool) : List α → List α
  | [] => []
  | x :: xs => insertSorted le x (stableSort le xs)

/-- The `users` table entries (fields from usage across the repository:
profile fields, credentials, ban flag, name-change timestamp). -/
structure User where
  id : Nat
  username : String
  password : String
  name : String
  bio : Option String
  profileImage : Option String
  coverImage : Option String
  coverColor : Option String
  work : Option String
  education : Option String
  currentCity : Option String
  hometown : Option String
  createdAt : Nat
  lastNameChange : Option Nat
  isBanned : Bool
deriving DecidableEq, Repr

/-- The `posts` table entries. -/
structure Post where
  id : Nat
  userId : Nat
  content : String
  image : Option String
  createdAt : Nat
deriving DecidableEq, Repr

/-- The `likes` table entries. -/
structure Like where
  id : Nat
  userId : Nat
  postId : Nat
  createdAt : Nat
deriving DecidableEq, Repr

/-- The `comments` table entries. -/
structure Comment where
  id : Nat
  userId : Nat
  postId : Nat
  content : String
  createdAt : Nat
deriving DecidableEq, Repr

/-- The `friends` table entries; `status` is one of the strings
`"pending"`, `"accepted"`, `"rejected"`. -/
structure Friend where
  id : Nat
  userId : Nat
  friendId : Nat
  status : String
  createdAt : Nat
deriving DecidableEq, Repr

/-- Stories (`Story` interface in the storage module). -/
structure Story where
  id : Nat
  userId : Nat
  media : String
  createdAt : Nat
deriving DecidableEq, Repr

/-- Embedding of `InsertUser` payload for `createUser` (fields the store reads). -/
structure InsertUser where
  username : String
  password : String
  name : String
  bio : Option String
  profileImage : Option String
deriving DecidableEq, Repr

/-- Embedding of `InsertPost` payload for `createPost`. -/
structure InsertPost where
  userId : Nat
  content : String
  image : Option String
deriving DecidableEq, Repr

/-- Embedding of `InsertLike` payload for `createLike`. -/
structure InsertLike where
  userId : Nat
  postId : Nat
deriving DecidableEq, Repr

/-- Embedding of `InsertComment` payload for `createComment`. -/
structure InsertComment where
  userId : Nat
  postId : Nat
  content : String
deriving DecidableEq, Repr

/-- Embedding of `InsertFriend` payload for `createFriendRequest`; the store reads
`insertFriend.status ?? 'pending'`, so `status` is optional. -/
structure InsertFriend where
  userId : Nat
  friendId : Nat
  status : Option String
deriving DecidableEq, Repr

/-- A `Partial<User>` argument of `updateUser`: every field may be present
or omitted (`none` models an omitted field). -/
structure UserUpdates where
  username : Option String := none
  password : Option String := none
  name : Option String := none
  bio : Option (Option String) := none
  profileImage : Option (Option String) := none
  coverImage : Option (Option String) := none
  coverColor : Option (Option String) := none
  work : Option (Option String) := none
  education : Option (Option String) := none
  currentCity : Option (Option String) := none
  hometown : Option (Option String) := none
  lastNameChange : Option (Option Nat) := none
  isBanned : Option Bool := none
deriving DecidableEq, Repr

/-- A comment joined with its author record. -/
structure CommentWithAuthor where
  comment : Comment
  author : Option User
deriving DecidableEq, Repr

/-- A friend edge joined with the other party's user record
(`FriendWithUser`). -/
structure FriendWithUser where
  friend : Friend
  user : Option User
deriving DecidableEq, Repr

/-- The enriched post view produced by `getPostsForFeed` (`PostWithAuthor`). -/
structure FeedPost where
  post : Post
  author : Option User
  likes : Nat
  liked : Bool
  comments : List CommentWithAuthor
deriving DecidableEq, Repr

/-- The enriched post view produced by `getPostsByUser`. -/
structure UserPostView where
  post : Post
  author : Option User
  liked : Bool
  likes : Nat
  comments : List CommentWithAuthor
  commentsCount : Nat
deriving DecidableEq, Repr

/-- The enriched post view produced by `getSavedPosts`. -/
structure SavedPostView where
  post : Post
  author : Option User
  saved : Bool
  comments : List CommentWithAuthor
  likes : Nat
deriving DecidableEq, Repr

/-- The `MemStorage` state: one list per `Map` collection (insertion order)
plus the id counters. -/
structure Store where
  users : List User
  posts : List Post
  likes : List Like
  comments : List Comment
  friends : List Friend
  savedPosts : List (Nat × List Nat)
  stories : List Story
  currentUserId : Nat
  currentPostId : Nat
  currentLikeId : Nat
  currentCommentId : Nat
  currentFriendId : Nat
  currentStoryId : Nat
deriving DecidableEq, Repr

/-- The freshly constructed `MemStorage`: empty collections, counters at 1. -/
def emptyStore : Store :=
  { users := [], posts := [], likes := [], comments := [], friends := []
    savedPosts := [], stories := []
    currentUserId := 1, currentPostId := 1, currentLikeId := 1
    currentCommentId := 1, currentFriendId := 1, currentStoryId := 1 }

/-- Embedding of `MemStorage.getUser`. -/
def getUser (s : Store) (id : Nat) : Option User :=
  s.users.find? (fun u => u.id == id)

/-- Embedding of `MemStorage.getUserByUsername`. -/
def getUserByUsername (s : Store) (username : String) : Option User :=
  s.users.find? (fun u => u.username == username)

/-- Embedding of `MemStorage.createUser`. -/
def createUser (s : Store) (ins : InsertUser) (now : Nat) : User × Store :=
  let id := s.currentUserId
  let user : User :=
    { id := id, username := ins.username, password := ins.password
      name := ins.name, bio := ins.bio, profileImage := ins.profileImage
      coverImage := none, coverColor := none, work := none, education := none
      currentCity := none, hometown := none, createdAt := now
      lastNameChange := none, isBanned := false }
  (user, { s with users := setById id user User.id s.users
                  currentUserId := id + 1 })

/-- The record update performed by `MemStorage.updateUser`: exactly the nine
profile fields that appear in the source are merged when present. -/
def mergeUser (u : User) (upd : UserUpdates) : User :=
  { u with
    name := upd.name.getD u.name
    bio := upd.bio.getD u.bio
    profileImage := upd.profileImage.getD u.profileImage
    work := upd.work.getD u.work
    education := upd.education.getD u.education
    currentCity := upd.currentCity.getD u.currentCity
    hometown := upd.hometown.getD u.hometown
    coverColor := upd.coverColor.getD u.coverColor
    coverImage := upd.coverImage.getD u.coverImage }

/-- Embedding of `MemStorage.updateUser`. -/
def updateUser (s : Store) (id : Nat) (upd : UserUpdates) :
    Option User × Store :=
  match getUser s id with
  | none => (none, s)
  | some u =>
      let updatedUser := mergeUser u upd
      (some updatedUser,
       { s with users := setById id updatedUser User.id s.users })

/-- Embedding of `MemStorage.getLike`. -/
def getLike (s : Store) (userId postId : Nat) : Option Like :=
  s.likes.find? (fun l => l.userId == userId && l.postId == postId)

/-- Embedding of `MemStorage.getLikesByPost`. -/
def getLikesByPost (s : Store) (postId : Nat) : List Like :=
  s.likes.filter (fun l => l.postId == postId)

/-- Embedding of `MemStorage.createLike`. -/
def createLike (s : Store) (ins : InsertLike) (now : Nat) : Like × Store :=
  let id := s.currentLikeId
  let like : Like :=
    { id := id, userId := ins.userId, postId := ins.postId, createdAt := now }
  (like, { s with likes := setById id like Like.id s.likes
                  currentLikeId := id + 1 })

/-- Embedding of `MemStorage.removeLike`. -/
def removeLike (s : Store) (userId postId : Nat) : Store :=
  match getLike s userId postId with
  | some like => { s with likes := s.likes.filter (fun l => !(l.id == like.id)) }
  | none => s

/-- The ascending-by-timestamp comparator used for comments. -/
def commentTimeAsc (a b : Comment) : Bool :=
  decide (a.createdAt ≤ b.createdAt)

/-- Embedding of `MemStorage.getCommentsByPost` (stable sort by timestamp, oldest first). -/
def getCommentsByPost (s : Store) (postId : Nat) : List Comment :=
  stableSort commentTimeAsc (s.comments.filter (fun c => c.postId == postId))

/-- Embedding of `MemStorage.createComment`. -/
def createComment (s : Store) (ins : InsertComment) (now : Nat) :
    Comment × Store :=
  let id := s.currentCommentId
  let comment : Comment :=
    { id := id, userId := ins.userId, postId := ins.postId
      content := ins.content, createdAt := now }
  (comment, { s with comments := setById id comment Comment.id s.comments
                     currentCommentId := id + 1 })

/-- Embedding of `MemStorage.createPost`. -/
def createPost (s : Store) (ins : InsertPost) (now : Nat) : Post × Store :=
  let id := s.currentPostId
  let post : Post :=
    { id := id, userId := ins.userId, content := ins.content
      image := ins.image, createdAt := now }
  (post, { s with posts := setById id post Post.id s.posts
                  currentPostId := id + 1 })

/-- Embedding of `MemStorage.getPost`. -/
def getPost (s : Store) (id : Nat) : Option Post :=
  s.posts.find? (fun p => p.id == id)

/-- Embedding of `MemStorage.updatePost`. -/
def updatePost (s : Store) (id : Nat) (content : String) :
    Option Post × Store :=
  match getPost s id with
  | none => (none, s)
  | some p =>
      let updatedPost := { p with content := content }
      (some updatedPost,
       { s with posts := setById id updatedPost Post.id s.posts })

/-- Embedding of `MemStorage.deletePost`: removes the post and cascades to the likes and
comments referencing it; `false` when the post is absent. -/
def deletePost (s : Store) (id : Nat) : Bool × Store :=
  match getPost s id with
  | none => (false, s)
  | some _ =>
      (true,
       { s with
         posts := s.posts.filter (fun p => !(p.id == id))
         likes := s.likes.filter (fun l => !(l.postId == id))
         comments := s.comments.filter (fun c => !(c.postId == id)) })

/-- The descending-by-timestamp comparator used for posts
(`(a, b) => b.createdAt.getTime() - a.createdAt.getTime()`). -/
def postTimeDesc (a b : Post) : Bool :=
  decide (b.createdAt ≤ a.createdAt)

/-- Embedding of `MemStorage.getFriends`: accepted edges with the user on either side,
joined with the other party's user record. -/
def getFriends (s : Store) (userId : Nat) : List FriendWithUser :=
  let friendConnections := s.friends.filter (fun f =>
    f.status == "accepted" && (f.userId == userId || f.friendId == userId))
  friendConnections.map (fun connection =>
    let friendUserId :=
      if connection.userId == userId then connection.friendId
      else connection.userId
    { friend := connection, user := getUser s friendUserId })

/-- Embedding of `MemStorage.getPostsByUser` (enriched, newest first). -/
def getPostsByUser (s : Store) (userId : Nat) : List UserPostView :=
  let userPosts :=
    stableSort postTimeDesc (s.posts.filter (fun p => p.userId == userId))
  userPosts.map (fun post =>
    let postLikes := getLikesByPost s post.id
    let postComments := getCommentsByPost s post.id
    { post := post
      author := getUser s post.userId
      liked := postLikes.any (fun l => l.userId == userId)
      likes := postLikes.length
      comments := postComments.map (fun c =>
        { comment := c, author := getUser s c.userId })
      commentsCount := postComments.length })

/-- The per-post enrichment of `getPostsForFeed`: author record, like count,
liked flag of the viewing user, and the comment list with comment authors. -/
def enrichFeedPost (s : Store) (userId : Nat) (post : Post) : FeedPost :=
  let postLikes := getLikesByPost s post.id
  let postComments := getCommentsByPost s post.id
  { post := post
    author := getUser s post.userId
    likes := postLikes.length
    liked := (getLike s userId post.id).isSome
    comments := postComments.map (fun c =>
      { comment := c, author := getUser s c.userId }) }

/-- Embedding of `MemStorage.getPostsForFeed`: posts by the user and by accepted friends,
newest first (stable sort), enriched with author, like count, liked flag and
comments. -/
def getPostsForFeed (s : Store) (userId : Nat) : List FeedPost :=
  let userFriends := getFriends s userId
  let friendIds := userFriends.map (fun fw =>
    if fw.friend.userId == userId then fw.friend.friendId else fw.friend.userId)
  let friendIds := friendIds ++ [userId]
  let feedPosts :=
    stableSort postTimeDesc (s.posts.filter (fun p => friendIds.contains p.userId))
  feedPosts.map (enrichFeedPost s userId)

/-- The for-loop of `deleteUser` over the user's posts: delete each post id
in turn via `deletePost`. -/
def deletePostsFold (ids : List Nat) (s : Store) : Store :=
  ids.foldl (fun st pid => (deletePost st pid).2) s

/-- Embedding of `MemStorage.deleteUser`: removes the user, deletes each post authored by
the user via `deletePost`, then removes the user's likes, comments and friend
edges; `false` and no change when the user is absent. -/
def deleteUser (s : Store) (id : Nat) : Bool × Store :=
  match getUser s id with
  | none => (false, s)
  | some _ =>
      let s1 := { s with users := s.users.filter (fun u => !(u.id == id)) }
      let userPostIds := (getPostsByUser s1 id).map (fun v => v.post.id)
      let s2 := deletePostsFold userPostIds s1
      let s3 :=
        { s2 with
          likes := s2.likes.filter (fun l => !(l.userId == id))
          comments := s2.comments.filter (fun c => !(c.userId == id))
          friends := s2.friends.filter (fun f =>
            !(f.userId == id || f.friendId == id)) }
      (true, s3)

/-- Embedding of `MemStorage.createFriendRequest`: inserts a new edge whose status is the
supplied status or `"pending"` when none is supplied. -/
def createFriendRequest (s : Store) (ins : InsertFriend) (now : Nat) :
    Friend × Store :=
  let id := s.currentFriendId
  let friend : Friend :=
    { id := id, userId := ins.userId, friendId := ins.friendId
      status := ins.status.getD "pending", createdAt := now }
  (friend, { s with friends := setById id friend Friend.id s.friends
                    currentFriendId := id + 1 })

/-- Embedding of `MemStorage.acceptFriendRequest`: sets the edge's status to `"accepted"`
whatever its current status; `none` when the id is absent. -/
def acceptFriendRequest (s : Store) (id : Nat) : Option Friend × Store :=
  match s.friends.find? (fun f => f.id == id) with
  | some friend =>
      let updatedFriend := { friend with status := "accepted" }
      (some updatedFriend,
       { s with friends := setById id updatedFriend Friend.id s.friends })
  | none => (none, s)

/-- Embedding of `MemStorage.rejectFriendRequest`: sets the edge's status to `"rejected"`
whatever its current status; `none` when the id is absent. -/
def rejectFriendRequest (s : Store) (id : Nat) : Option Friend × Store :=
  match s.friends.find? (fun f => f.id == id) with
  | some friend =>
      let updatedFriend := { friend with status := "rejected" }
      (some updatedFriend,
       { s with friends := setById id updatedFriend Friend.id s.friends })
  | none => (none, s)

/-- Embedding of `MemStorage.getFriendRequest`: finds an edge between the two users in
either direction. -/
def getFriendRequest (s : Store) (userId friendId : Nat) : Option Friend :=
  s.friends.find? (fun f =>
    (f.userId == userId && f.friendId == friendId) ||
    (f.userId == friendId && f.friendId == userId))

/-- Embedding of `MemStorage.getFriendRequestsForUser`. -/
def getFriendRequestsForUser (s : Store) (userId : Nat) : List FriendWithUser :=
  (s.friends.filter (fun f => f.friendId == userId && f.status == "pending")).map
    (fun request => { friend := request, user := getUser s request.userId })

/-- Embedding of `MemStorage.getFriendSuggestions`: all users minus the current user and
the accepted-friend set (derived from `getFriends`), capped to five. -/
def getFriendSuggestions (s : Store) (userId : Nat) : List User :=
  let friends := getFriends s userId
  let friendIds := friends.map (fun f =>
    if f.friend.friendId == userId then f.friend.userId else f.friend.friendId)
  let friendIds := userId :: friendIds
  (s.users.filter (fun u => !(friendIds.contains u.id))).take 5

/-- Embedding of `MemStorage.toggleUserBanStatus`. -/
def toggleUserBanStatus (s : Store) (userId : Nat) : Option User × Store :=
  match getUser s userId with
  | none => (none, s)
  | some u =>
      let updatedUser := { u with isBanned := !u.isBanned }
      (some updatedUser,
       { s with users := setById userId updatedUser User.id s.users })

/-- The saved-post id list of a user (`this.savedPosts.get(userId) || []`). -/
def savedIdsOf (s : Store) (userId : Nat) : List Nat :=
  ((s.savedPosts.find? (fun e => e.1 == userId)).map Prod.snd).getD []

/-- Embedding of `MemStorage.savePost`: set-membership append. -/
def savePost (s : Store) (userId postId : Nat) : Store :=
  let saved := savedIdsOf s userId
  if saved.contains postId then s
  else
    let entries := setById userId (userId, saved ++ [postId]) Prod.fst s.savedPosts
    { s with savedPosts := entries }

/-- Embedding of `MemStorage.unsavePost`: removes the id when the user has an entry. -/
def unsavePost (s : Store) (userId postId : Nat) : Store :=
  match s.savedPosts.find? (fun e => e.1 == userId) with
  | some entry =>
      let kept := entry.2.filter (fun i => !(i == postId))
      { s with savedPosts := setById userId (userId, kept) Prod.fst s.savedPosts }
  | none => s

/-- Embedding of `MemStorage.createStory`. -/
def createStory (s : Store) (userId : Nat) (media : String) (now : Nat) :
    Story × Store :=
  let id := s.currentStoryId
  let story : Story :=
    { id := id, userId := userId, media := media, createdAt := now }
  (story, { s with stories := setById id story Story.id s.stories
                   currentStoryId := id + 1 })

/-- The per-post enrichment of `getSavedPosts`: author record, saved flag,
comment list with authors, and like count. -/
def enrichSavedPost (s : Store) (postId : Nat) (post : Post) : SavedPostView :=
  let postComments := getCommentsByPost s postId
  { post := post
    author := getUser s post.userId
    saved := true
    comments := postComments.map (fun c =>
      { comment := c, author := getUser s c.userId })
    likes := (getLikesByPost s postId).length }

/-- Embedding of `MemStorage.getSavedPosts`: maps each saved post id to an enriched view,
yielding `null` for a post that no longer exists, then filters the `null`s
out. -/
def getSavedPosts (s : Store) (userId : Nat) : List SavedPostView :=
  let maybeViews := (savedIdsOf s userId).map (fun postId =>
    (getPost s postId).map (enrichSavedPost s postId))
  maybeViews.reduceOption

/-- The mutating store operations, for statements about operation
sequences. -/
inductive StoreOp where
  | opCreateUser (ins : InsertUser) (now : Nat)
  | opUpdateUser (id : Nat) (upd : UserUpdates)
  | opDeleteUser (id : Nat)
  | opCreatePost (ins : InsertPost) (now : Nat)
  | opUpdatePost (id : Nat) (content : String)
  | opDeletePost (id : Nat)
  | opCreateLike (ins : InsertLike) (now : Nat)
  | opRemoveLike (userId postId : Nat)
  | opCreateComment (ins : InsertComment) (now : Nat)
  | opCreateFriendRequest (ins : InsertFriend) (now : Nat)
  | opAcceptFriendRequest (id : Nat)
  | opRejectFriendRequest (id : Nat)
  | opToggleUserBanStatus (id : Nat)
  | opSavePost (userId postId : Nat)
  | opUnsavePost (userId postId : Nat)
  | opCreateStory (userId : Nat) (media : String) (now : Nat)
deriving DecidableEq, Repr

/-- State transition of one mutating store operation. -/
def applyOp (s : Store) : StoreOp → Store
  | .opCreateUser ins now => (createUser s ins now).2
  | .opUpdateUser id upd => (updateUser s id upd).2
  | .opDeleteUser id => (deleteUser s id).2
  | .opCreatePost ins now => (createPost s ins now).2
  | .opUpdatePost id content => (updatePost s id content).2
  | .opDeletePost id => (deletePost s id).2
  | .opCreateLike ins now => (createLike s ins now).2
  | .opRemoveLike userId postId => removeLike s userId postId
  | .opCreateComment ins now => (createComment s ins now).2
  | .opCreateFriendRequest ins now => (createFriendRequest s ins now).2
  | .opAcceptFriendRequest id => (acceptFriendRequest s id).2
  | .opRejectFriendRequest id => (rejectFriendRequest s id).2
  | .opToggleUserBanStatus id => (toggleUserBanStatus s id).2
  | .opSavePost userId postId => savePost s userId postId
  | .opUnsavePost userId postId => unsavePost s userId postId
  | .opCreateStory userId media now => (createStory s userId media now).2

/-- States reachable from the fresh store by mutating operations. -/
def runOps (ops : List StoreOp) : Store :=
  ops.foldl applyOp emptyStore

/-- Specification-side predicate: some friend edge with status `"accepted"`
connects `a` and `b`, in either direction. -/
def acceptedBetween (s : Store) (a b : Nat) : Bool :=
  s.friends.any (fun f =>
    f.status == "accepted" &&
    ((f.userId == a && f.friendId == b) || (f.userId == b && f.friendId == a)))

/-- Specification-side predicate: the post is visible in the feed of `u`
(authored by `u` or by an accepted friend of `u`). -/
def visibleInFeed (s : Store) (u : Nat) (p : Post) : Bool :=
  p.userId == u || acceptedBetween s u p.userId

/-- Well-formedness of the like-id counter: every stored like has an id below
the counter (holds in every reachable store state). -/
def LikeIdsOk (s : Store) : Prop :=
  ∀ l ∈ s.likes, l.id < s.currentLikeId

/-- Well-formedness of the friend-id counter: every stored edge has an id
below the counter (holds in every reachable store state). -/
def FriendIdsOk (s : Store) : Prop :=
  ∀ f ∈ s.friends, f.id < s.currentFriendId

/-- A concrete user payload for the concrete theorems. -/
def insAlice : InsertUser :=
  { username := "alice", password := "pw", name := "Alice"
    bio := none, profileImage := none }

/-- A second concrete user payload. -/
def insBob : InsertUser :=
  { username := "bob", password := "pw", name := "Bob"
    bio := none, profileImage := none }

/-- Reachable store with two users and one pending friend request from 1
to 2. -/
def c1store : Store :=
  runOps [.opCreateUser insAlice 1, .opCreateUser insBob 2,
    .opCreateFriendRequest ⟨1, 2, some "pending"⟩ 3]

/-- Reachable store with two users, a post by user 1 and a like on it by
user 2. -/
def c2store : Store :=
  runOps [.opCreateUser insAlice 1, .opCreateUser insBob 2,
    .opCreatePost ⟨1, "hello", none⟩ 3, .opCreateLike ⟨2, 1⟩ 4]

/-- Reachable store with one user and two posts sharing the same creation
timestamp. -/
def c3store : Store :=
  runOps [.opCreateUser insAlice 1, .opCreatePost ⟨1, "x", none⟩ 5,
    .opCreatePost ⟨1, "y", none⟩ 5]

/-- Reachable store with users, posts, likes, comments, a pending edge, a
saved post and a story; user 1 acts everywhere. -/
def c4store : Store :=
  runOps [.opCreateUser insAlice 1, .opCreateUser insBob 2,
    .opCreatePost ⟨1, "p1", none⟩ 3, .opCreatePost ⟨2, "p2", none⟩ 4,
    .opCreateLike ⟨2, 1⟩ 5, .opCreateLike ⟨1, 2⟩ 6,
    .opCreateComment ⟨2, 1, "c1"⟩ 7, .opCreateComment ⟨1, 2, "c2"⟩ 8,
    .opCreateFriendRequest ⟨1, 2, some "pending"⟩ 9,
    .opSavePost 1 2, .opCreateStory 1 "m" 10]

/-- Reachable store whose single friend edge (id 1) has been rejected. -/
def c5store : Store :=
  runOps [.opCreateUser insAlice 1, .opCreateUser insBob 2,
    .opCreateFriendRequest ⟨1, 2, some "pending"⟩ 3,
    .opRejectFriendRequest 1]

/-- Reachable store with a single user. -/
def c7store : Store :=
  runOps [.opCreateUser insAlice 1]

/-- Reachable store where user 1 saved posts 1 and 2 and post 1 was then
deleted. -/
def c10store : Store :=
  runOps [.opCreateUser insAlice 1, .opCreatePost ⟨1, "a", none⟩ 2,
    .opCreatePost ⟨1, "b", none⟩ 3, .opSavePost 1 1, .opSavePost 1 2,
    .opDeletePost 1]

/-- The user record stored in `c7store` (created by `createUser` from
`insAlice` at time 1). -/
def aliceUser : User :=
  { id := 1, username := "alice", password := "pw", name := "Alice"
    bio := none, profileImage := none, coverImage := none, coverColor := none
    work := none, education := none, currentCity := none, hometown := none
    createdAt := 1, lastNameChange := none, isBanned := false }

/-! ### Basic lemmas about the embedded collection primitives -/

theorem mem_setById {keyOf : α → Nat} {l : List α} {x : α}
    (h : x ∈ setById key v keyOf l) : x = v ∨ x ∈ l := by
  induction l with
  | nil => simpa [setById] using h
  | cons y ys ih =>
      cases hk : keyOf y == key with
      | true =>
          simp only [setById, hk, if_pos] at h
          rcases List.mem_cons.mp h with h | h
          · exact Or.inl h
          · exact Or.inr (List.mem_cons_of_mem _ h)
      | false =>
          simp only [setById, hk, Bool.false_eq_true, if_false] at h
          rcases List.mem_cons.mp h with h | h
          · exact Or.inr (by simp [h])
          · rcases ih h with h' | h'
            · exact Or.inl h'
            · exact Or.inr (List.mem_cons_of_mem _ h')

theorem setById_eq_append {keyOf : α → Nat} {l : List α}
    (h : ∀ x ∈ l, keyOf x ≠ key) : setById key v keyOf l = l ++ [v] := by
  induction l with
  | nil => rfl
  | cons y ys ih =>
      have hy : (keyOf y == key) = false := by
        simpa using h y (List.mem_cons_self y ys)
      simp [setById, hy, ih (fun x hx => h x (List.mem_cons_of_mem _ hx))]

theorem find?_setById {keyOf : α → Nat} {p : α → Bool} {l : List α}
    (hl : ∀ x ∈ l, p x = false) (hv : p v = true) :
    (setById key v keyOf l).find? p = some v := by
  induction l with
  | nil => simp [setById, List.find?_cons_of_pos, hv]
  | cons y ys ih =>
      cases hk : keyOf y == key with
      | true =>
          simp only [setById, hk, if_pos]
          exact List.find?_cons_of_pos _ hv
      | false =>
          have hy := hl y (List.mem_cons_self y ys)
          simp only [setById, hk, Bool.false_eq_true, if_false]
          rw [List.find?_cons_of_neg _ (by simp [hy])]
          exact ih (fun x hx => hl x (List.mem_cons_of_mem _ hx))

theorem find?_key_setById {keyOf : α → Nat} (hv : keyOf v = key) :
    ∀ l : List α, (setById key v keyOf l).find? (fun x => keyOf x == key) = some v := by
  intro l
  induction l with
  | nil =>
      simp only [setById]
      exact List.find?_cons_of_pos _ (by simp [hv])
  | cons y ys ih =>
      cases hk : keyOf y == key with
      | true =>
          simp only [setById, hk, if_pos]
          exact List.find?_cons_of_pos _ (by simp [hv])
      | false =>
          simp only [setById, hk, Bool.false_eq_true, if_false]
          rw [List.find?_cons_of_neg _ (by simp [hk])]
          exact ih

theorem postTimeDesc_trans :
    ∀ a b c : Post, postTimeDesc a b → postTimeDesc b c → postTimeDesc a c := by
  intro a b c hab hbc
  simp only [postTimeDesc, decide_eq_true_eq] at *
  omega

theorem postTimeDesc_total : ∀ a b : Post, postTimeDesc a b || postTimeDesc b a := by
  intro a b
  simp only [postTimeDesc, Bool.or_eq_true, decide_eq_true_eq]
  omega

theorem contains_map_filter {L : List Friend} {pred : Friend → Bool}
    {g : Friend → Nat} {acc : Friend → Bool} {x : Nat}
    (h1 : ∀ f, pred f = true → (x == g f) = acc f)
    (h2 : ∀ f, pred f = false → acc f = false) :
    ((L.filter pred).map g).contains x = L.any acc := by
  induction L with
  | nil => simp
  | cons f fs ih =>
      cases hp : pred f with
      | true =>
          rw [List.filter_cons_of_pos hp, List.map_cons, List.contains_cons,
            List.any_cons, h1 f hp, ih]
      | false =>
          rw [List.filter_cons_of_neg (by simp [hp]), List.any_cons, h2 f hp,
            Bool.false_or, ih]

theorem suggestion_otherParty_eq {u x : Nat} {f : Friend}
    (hp : (f.status == "accepted" && (f.userId == u || f.friendId == u)) = true) :
    (x == (if f.friendId == u then f.userId else f.friendId)) =
      (f.status == "accepted" &&
        ((f.userId == u && f.friendId == x) || (f.userId == x && f.friendId == u))) := by
  simp only [Bool.and_eq_true, Bool.or_eq_true, beq_iff_eq] at hp
  obtain ⟨hs, hinv⟩ := hp
  rw [Bool.eq_iff_iff]
  by_cases hfu : f.friendId = u
  · simp only [hs, hfu, beq_self_eq_true, if_pos, Bool.and_eq_true, Bool.or_eq_true,
      beq_iff_eq, true_and, and_true, and_false, or_false, false_and, false_or]
    omega
  · have hfu' : (f.friendId == u) = false := by simpa using hfu
    simp only [hs, hfu', Bool.false_eq_true, if_false, Bool.and_eq_true, Bool.or_eq_true,
      beq_iff_eq, true_and, and_true, and_false, or_false, false_and, false_or]
    omega

theorem feed_otherParty_eq {u x : Nat} {f : Friend}
    (hp : (f.status == "accepted" && (f.userId == u || f.friendId == u)) = true) :
    (x == (if f.userId == u then f.friendId else f.userId)) =
      (f.status == "accepted" &&
        ((f.userId == u && f.friendId == x) || (f.userId == x && f.friendId == u))) := by
  simp only [Bool.and_eq_true, Bool.or_eq_true, beq_iff_eq] at hp
  obtain ⟨hs, hinv⟩ := hp
  rw [Bool.eq_iff_iff]
  by_cases hfu : f.userId = u
  · simp only [hs, hfu, beq_self_eq_true, if_pos, Bool.and_eq_true, Bool.or_eq_true,
      beq_iff_eq, true_and, and_true, and_false, or_false, false_and, false_or]
    omega
  · have hfu' : (f.userId == u) = false := by simpa using hfu
    simp only [hs, hfu', Bool.false_eq_true, if_false, Bool.and_eq_true, Bool.or_eq_true,
      beq_iff_eq, true_and, and_true, and_false, or_false, false_and, false_or]
    omega

theorem acceptedPred_false {u x : Nat} {f : Friend}
    (hp : (f.status == "accepted" && (f.userId == u || f.friendId == u)) = false) :
    (f.status == "accepted" &&
      ((f.userId == u && f.friendId == x) || (f.userId == x && f.friendId == u))) = false := by
  rw [Bool.eq_false_iff] at hp ⊢
  intro hacc
  apply hp
  simp only [Bool.and_eq_true, Bool.or_eq_true, beq_iff_eq] at hacc ⊢
  obtain ⟨hs, hbet⟩ := hacc
  exact ⟨hs, by omega⟩

/-! ### Lemmas about the stable sort -/

theorem insertSorted_perm (le : α → α → Bool) (x : α) (l : List α) :
    List.Perm (insertSorted le x l) (x :: l) := by
  induction l with
  | nil => rfl
  | cons y ys ih =>
      by_cases hc : (le y x && !(le x y)) = true
      · rw [insertSorted, if_pos hc]
        exact (ih.cons y).trans (List.Perm.swap x y ys)
      · rw [insertSorted, if_neg hc]

theorem stableSort_perm (le : α → α → Bool) (l : List α) :
    List.Perm (stableSort le l) l := by
  induction l with
  | nil => rfl
  | cons x xs ih =>
      exact (insertSorted_perm le x (stableSort le xs)).trans (ih.cons x)

theorem mem_stableSort {le : α → α → Bool} {l : List α} {a : α} :
    a ∈ stableSort le l ↔ a ∈ l :=
  (stableSort_perm le l).mem_iff

theorem pairwise_insertSorted {le : α → α → Bool}
    (htrans : ∀ a b c, le a b → le b c → le a c)
    (htotal : ∀ a b, le a b || le b a) (x : α) {l : List α}
    (h : l.Pairwise (fun a b => le a b)) :
    (insertSorted le x l).Pairwise (fun a b => le a b) := by
  induction l with
  | nil => simp [insertSorted]
  | cons y ys ih =>
      rcases List.pairwise_cons.mp h with ⟨hy, hys⟩
      by_cases hc : (le y x && !(le x y)) = true
      · rw [insertSorted, if_pos hc]
        refine List.pairwise_cons.mpr ⟨?_, ih hys⟩
        intro z hz
        rcases List.mem_cons.mp ((insertSorted_perm le x ys).mem_iff.mp hz) with rfl | hz'
        · exact (Bool.and_eq_true ..).mp hc |>.1
        · exact hy z hz'
      · rw [insertSorted, if_neg hc]
        have hxy : le x y = true := by
          cases hxy : le x y with
          | true => rfl
          | false =>
              have hyx : le y x = true := by
                have ht := htotal x y
                rw [hxy, Bool.false_or] at ht
                exact ht
              exact absurd (by rw [hyx, hxy]; rfl) hc
        refine List.pairwise_cons.mpr ⟨?_, h⟩
        intro z hz
        rcases List.mem_cons.mp hz with rfl | hz'
        · exact hxy
        · exact htrans x y z hxy (hy z hz')

theorem pairwise_stableSort {le : α → α → Bool}
    (htrans : ∀ a b c, le a b → le b c → le a c)
    (htotal : ∀ a b, le a b || le b a) (l : List α) :
    (stableSort le l).Pairwise (fun a b => le a b) := by
  induction l with
  | nil => exact List.Pairwise.nil
  | cons x xs ih => exact pairwise_insertSorted htrans htotal x ih

theorem filter_insertSorted_neg {le : α → α → Bool} {p : α → Bool} {x : α}
    (hx : p x = false) (l : List α) :
    (insertSorted le x l).filter p = l.filter p := by
  induction l with
  | nil => simp [insertSorted, hx]
  | cons y ys ih =>
      by_cases hc : (le y x && !(le x y)) = true
      · rw [insertSorted, if_pos hc]
        cases hy : p y with
        | true =>
            rw [List.filter_cons_of_pos (by rw [hy]), List.filter_cons_of_pos (by rw [hy]), ih]
        | false =>
            rw [List.filter_cons_of_neg (by simp [hy]), List.filter_cons_of_neg (by simp [hy]), ih]
      · rw [insertSorted, if_neg hc, List.filter_cons_of_neg (by simp [hx])]

theorem filter_insertSorted_pos {le : α → α → Bool} {p : α → Bool} {x : α}
    (hx : p x = true) {l : List α}
    (hties : ∀ y ∈ l, p y = true → (le y x = true ∧ le x y = true)) :
    (insertSorted le x l).filter p = x :: l.filter p := by
  induction l with
  | nil => simp [insertSorted, hx]
  | cons y ys ih =>
      by_cases hc : (le y x && !(le x y)) = true
      · have hyf : p y = false := by
          cases hy : p y with
          | false => rfl
          | true =>
              rcases hties y (List.mem_cons_self y ys) hy with ⟨h1, h2⟩
              rw [h1, h2] at hc
              exact absurd hc (by simp)
        rw [insertSorted, if_pos hc, List.filter_cons_of_neg (by simp [hyf]),
          List.filter_cons_of_neg (by simp [hyf])]
        exact ih (fun z hz hpz => hties z (List.mem_cons_of_mem _ hz) hpz)
      · rw [insertSorted, if_neg hc, List.filter_cons_of_pos (by rw [hx])]

theorem filter_stableSort_ties {le : α → α → Bool} {p : α → Bool}
    (hp : ∀ a b, p a = true → p b = true → (le a b = true ∧ le b a = true)) :
    ∀ l : List α, (stableSort le l).filter p = l.filter p := by
  intro l
  induction l with
  | nil => rfl
  | cons x xs ih =>
      cases hx : p x with
      | false =>
          rw [stableSort, filter_insertSorted_neg hx, ih,
            List.filter_cons_of_neg (by simp [hx])]
      | true =>
          rw [stableSort,
            filter_insertSorted_pos hx (fun y _ hpy => hp y x hpy hx), ih,
            List.filter_cons_of_pos (by rw [hx])]

/-! ### C1: friend suggestions -/

/-- C1 (amended): for every user id `u`, `getFriendSuggestions u` returns the
first five users, in insertion (collection) order, that are distinct from `u`
and not connected to `u` by an *accepted* friend edge in either direction;
pending or rejected edges do not exclude a user. -/
theorem getFriendSuggestions_spec (s : Store) (u : Nat) :
    getFriendSuggestions s u =
      (s.users.filter (fun v => !(v.id == u) && !(acceptedBetween s u v.id))).take 5 := by
  simp only [getFriendSuggestions, getFriends]
  congr 1
  apply List.filter_congr
  intro v _
  rw [List.map_map, List.contains_cons]
  show (!(v.id == u ||
      (List.map (fun f : Friend => if f.friendId == u then f.userId else f.friendId)
        (List.filter (fun f => f.status == "accepted" && (f.userId == u || f.friendId == u))
          s.friends)).contains v.id)) =
    (!(v.id == u) && !(acceptedBetween s u v.id))
  rw [contains_map_filter (fun f hf => suggestion_otherParty_eq hf)
      (fun f hf => acceptedPred_false hf),
    Bool.not_or]
  rfl

/-- C1 counterexample: in the reachable store `c1store`, user 2 has a pending
friend edge with user 1 (so `getFriendRequest` finds an edge) and is
nevertheless returned by `getFriendSuggestions 1`, refuting the claim that a
`FriendEdge` in any state excludes a user from the suggestions. -/
theorem getFriendSuggestions_cex :
    (getFriendSuggestions c1store 1).map (fun v => v.id) = [2] ∧
    (getFriendRequest c1store 1 2).isSome = true := by decide

theorem find?_ext {p q : α → Bool} (h : ∀ x, p x = q x) :
    ∀ l : List α, l.find? p = l.find? q := by
  intro l
  induction l with
  | nil => rfl
  | cons x xs ih =>
      cases hp : p x with
      | true =>
          have hq : q x = true := by rw [← h x]; exact hp
          rw [List.find?_cons_of_pos xs hp, List.find?_cons_of_pos xs hq]
      | false =>
          have hq : q x = false := by rw [← h x]; exact hp
          rw [List.find?_cons_of_neg xs (by simp [hp]), List.find?_cons_of_neg xs (by simp [hq]), ih]

/-! ### C8: symmetry of getFriendRequest -/

/-- C8: `getFriendRequest` is symmetric in its two arguments, and when no
edge between `a` and `b` exists, the edge created by `createFriendRequest`
from `a` to `b` is found by `getFriendRequest` in both argument orders. -/
theorem getFriendRequest_spec (s : Store) (a b : Nat) :
    getFriendRequest s a b = getFriendRequest s b a ∧
    (∀ (ins : InsertFriend) (now : Nat), ins.userId = a → ins.friendId = b →
      getFriendRequest s a b = none →
      getFriendRequest (createFriendRequest s ins now).2 a b =
        some (createFriendRequest s ins now).1 ∧
      getFriendRequest (createFriendRequest s ins now).2 b a =
        some (createFriendRequest s ins now).1) := by
  have hsym : getFriendRequest s a b = getFriendRequest s b a :=
    find?_ext (fun f => by rw [Bool.or_comm]) s.friends
  refine ⟨hsym, ?_⟩
  intro ins now hu hf hnone
  have hall : ∀ f ∈ s.friends,
      ((f.userId == a && f.friendId == b) || (f.userId == b && f.friendId == a)) = false := by
    intro f hfm
    have hnf := List.find?_eq_none.mp hnone f hfm
    simpa using hnf
  have hall' : ∀ f ∈ s.friends,
      ((f.userId == b && f.friendId == a) || (f.userId == a && f.friendId == b)) = false := by
    intro f hfm
    rw [Bool.or_comm]
    exact hall f hfm
  constructor
  · simp only [getFriendRequest, createFriendRequest]
    exact find?_setById hall (by simp [hu, hf])
  · simp only [getFriendRequest, createFriendRequest]
    exact find?_setById hall' (by simp [hu, hf])

/-- C8 witness: the symmetry and the create-then-find property at the
concrete store `c2store` (which has no friend edges). -/
theorem getFriendRequest_witness :
    getFriendRequest c2store 1 2 = getFriendRequest c2store 2 1 ∧
    getFriendRequest (createFriendRequest c2store ⟨1, 2, some "pending"⟩ 9).2 1 2 =
      some (createFriendRequest c2store ⟨1, 2, some "pending"⟩ 9).1 ∧
    getFriendRequest (createFriendRequest c2store ⟨1, 2, some "pending"⟩ 9).2 2 1 =
      some (createFriendRequest c2store ⟨1, 2, some "pending"⟩ 9).1 := by
  refine ⟨(getFriendRequest_spec c2store 1 2).1, ?_, ?_⟩
  · exact ((getFriendRequest_spec c2store 1 2).2 ⟨1, 2, some "pending"⟩ 9 rfl rfl (by decide)).1
  · exact ((getFriendRequest_spec c2store 1 2).2 ⟨1, 2, some "pending"⟩ 9 rfl rfl (by decide)).2

/-! ### C7: updateUser -/

/-- C7 (amended): for a present user id, `updateUser` merges exactly the nine
profile fields (name, bio, profileImage, work, education, currentCity,
hometown, coverColor, coverImage) that are explicitly present in the partial
update, leaves every other stored field — including `lastNameChange`,
`username`, `password`, `isBanned` — at its current value even when the
partial update supplies one, and returns the not-found signal without
changing the store when the id is absent. -/
theorem updateUser_spec (s : Store) (id : Nat) (upd : UserUpdates) :
    (getUser s id = none → updateUser s id upd = (none, s)) ∧
    (∀ u, getUser s id = some u →
      ∃ r, updateUser s id upd =
          (some r, { s with users := setById id r User.id s.users }) ∧
        getUser (updateUser s id upd).2 id = some r ∧
        r.name = upd.name.getD u.name ∧
        r.bio = upd.bio.getD u.bio ∧
        r.profileImage = upd.profileImage.getD u.profileImage ∧
        r.work = upd.work.getD u.work ∧
        r.education = upd.education.getD u.education ∧
        r.currentCity = upd.currentCity.getD u.currentCity ∧
        r.hometown = upd.hometown.getD u.hometown ∧
        r.coverColor = upd.coverColor.getD u.coverColor ∧
        r.coverImage = upd.coverImage.getD u.coverImage ∧
        r.id = u.id ∧ r.username = u.username ∧ r.password = u.password ∧
        r.createdAt = u.createdAt ∧ r.lastNameChange = u.lastNameChange ∧
        r.isBanned = u.isBanned) := by
  constructor
  · intro h
    simp [updateUser, h]
  · intro u hu
    have hid : u.id = id := by
      have := List.find?_some hu
      simpa using this
    refine ⟨mergeUser u upd, by simp [updateUser, hu], ?_, rfl, rfl, rfl, rfl, rfl,
      rfl, rfl, rfl, rfl, rfl, rfl, rfl, rfl, rfl, rfl⟩
    have hstep : (updateUser s id upd).2 =
        { s with users := setById id (mergeUser u upd) User.id s.users } := by
      simp [updateUser, hu]
    rw [hstep]
    show (setById id (mergeUser u upd) User.id s.users).find?
      (fun x => User.id x == id) = some (mergeUser u upd)
    exact find?_key_setById (by simpa [mergeUser] using hid) s.users

/-- C7 counterexample: in `c7store` the stored user 1 has `lastNameChange`
set to `none`; a partial update that explicitly supplies
`lastNameChange = some 99` is accepted but the returned (and stored) record
still has `lastNameChange = none` — the caller-supplied timestamp is not
merged, refuting the claim. -/
theorem updateUser_cex :
    ((updateUser c7store 1 { lastNameChange := some (some 99) }).1.map
      (fun u => u.lastNameChange)) = some none ∧
    (some none : Option (Option Nat)) ≠ some (some 99) := by decide

/-- C7 witness: `updateUser_spec` applied at `c7store`: id 99 is absent, and
for the present id 1 a supplied name is merged while `username` is kept. -/
theorem updateUser_witness :
    updateUser c7store 99 { name := some "Al" } = (none, c7store) ∧
    ((updateUser c7store 1 { name := some "Al" }).1.map
      (fun r => (r.name, r.username, r.lastNameChange))) =
      some ("Al", "alice", none) := by
  constructor
  · exact (updateUser_spec c7store 99 { name := some "Al" }).1 (by decide)
  · obtain ⟨r, h1, _, hname, _, _, _, _, _, _, _, _, _, husr, _, _, hlnc, _⟩ :=
      (updateUser_spec c7store 1 { name := some "Al" }).2 aliceUser (by decide)
    have h1' : (updateUser c7store 1 { name := some "Al" }).1 = some r := by
      rw [h1]
    rw [h1']
    simp only [Option.map]
    rw [hname, husr, hlnc]
    rfl

/-! ### C6: deletePost cascade -/

/-- C6: for a present post id `p`, `deletePost` returns `true` and afterwards
`getPost p` is absent and `getLikesByPost p` and `getCommentsByPost p` are
empty, however many likes or comments referenced `p`; for an absent id it
returns `false` and leaves the store unchanged. -/
theorem deletePost_spec (s : Store) (p : Nat) :
    ((getPost s p).isSome →
      (deletePost s p).1 = true ∧
      getPost (deletePost s p).2 p = none ∧
      getLikesByPost (deletePost s p).2 p = [] ∧
      getCommentsByPost (deletePost s p).2 p = []) ∧
    (getPost s p = none → deletePost s p = (false, s)) := by
  constructor
  · intro h
    obtain ⟨q, hq⟩ := Option.isSome_iff_exists.mp h
    simp only [getPost] at hq
    refine ⟨by simp [deletePost, getPost, hq], ?_, ?_, ?_⟩
    · simp only [deletePost, getPost, hq]
      rw [List.find?_eq_none]
      intro x hx
      have hx2 := (List.mem_filter.mp hx).2
      simp only [Bool.not_eq_true'] at hx2
      simp [hx2]
    · simp only [deletePost, getPost, getLikesByPost, hq]
      rw [List.filter_eq_nil_iff]
      intro a ha
      have ha2 := (List.mem_filter.mp ha).2
      simp only [Bool.not_eq_true'] at ha2
      simp [ha2]
    · simp only [deletePost, getPost, getCommentsByPost, hq]
      have hnil : ((s.comments.filter (fun c => !(c.postId == p))).filter
          (fun c => c.postId == p)) = [] := by
        rw [List.filter_eq_nil_iff]
        intro a ha
        have ha2 := (List.mem_filter.mp ha).2
        simp only [Bool.not_eq_true'] at ha2
        simp [ha2]
      rw [hnil]
      rfl
  · intro h
    simp only [getPost] at h
    simp [deletePost, getPost, h]

/-- C6 witness: `deletePost_spec` applied at `c4store`, where post 1 has a
like and a comment, and at the absent post id 99. -/
theorem deletePost_witness :
    (deletePost c4store 1).1 = true ∧
    getPost (deletePost c4store 1).2 1 = none ∧
    getLikesByPost (deletePost c4store 1).2 1 = [] ∧
    getCommentsByPost (deletePost c4store 1).2 1 = [] ∧
    deletePost c4store 99 = (false, c4store) := by
  obtain ⟨h1, h2, h3, h4⟩ := (deletePost_spec c4store 1).1 (by decide)
  exact ⟨h1, h2, h3, h4, (deletePost_spec c4store 99).2 (by decide)⟩

/-! ### Lemmas about the deletePost fold inside deleteUser -/

theorem deletePost_frame (s : Store) (pid : Nat) :
    (deletePost s pid).2.users = s.users ∧
    (deletePost s pid).2.friends = s.friends ∧
    (deletePost s pid).2.savedPosts = s.savedPosts ∧
    (deletePost s pid).2.stories = s.stories ∧
    (deletePost s pid).2.currentLikeId = s.currentLikeId ∧
    (deletePost s pid).2.currentFriendId = s.currentFriendId := by
  simp only [deletePost, getPost]
  split <;> exact ⟨rfl, rfl, rfl, rfl, rfl, rfl⟩

theorem deletePostsFold_frame (ids : List Nat) : ∀ s : Store,
    (deletePostsFold ids s).users = s.users ∧
    (deletePostsFold ids s).friends = s.friends ∧
    (deletePostsFold ids s).savedPosts = s.savedPosts ∧
    (deletePostsFold ids s).stories = s.stories ∧
    (deletePostsFold ids s).currentLikeId = s.currentLikeId ∧
    (deletePostsFold ids s).currentFriendId = s.currentFriendId := by
  induction ids with
  | nil => intro s; exact ⟨rfl, rfl, rfl, rfl, rfl, rfl⟩
  | cons i ids ih =>
      intro s
      have hstep := deletePost_frame s i
      have hrec := ih (deletePost s i).2
      exact ⟨hrec.1.trans hstep.1, hrec.2.1.trans hstep.2.1,
        hrec.2.2.1.trans hstep.2.2.1, hrec.2.2.2.1.trans hstep.2.2.2.1,
        hrec.2.2.2.2.1.trans hstep.2.2.2.2.1, hrec.2.2.2.2.2.trans hstep.2.2.2.2.2⟩

theorem deletePostsFold_posts_mem (ids : List Nat) : ∀ (s : Store) (x : Post),
    x ∈ (deletePostsFold ids s).posts → x ∈ s.posts ∧ x.id ∉ ids := by
  induction ids with
  | nil => intro s x hx; exact ⟨hx, by simp⟩
  | cons i ids ih =>
      intro s x hx
      obtain ⟨hx1, hx2⟩ := ih (deletePost s i).2 x hx
      cases h : List.find? (fun q => q.id == i) s.posts with
      | none =>
          have hstep : (deletePost s i).2 = s := by simp [deletePost, getPost, h]
          rw [hstep] at hx1
          refine ⟨hx1, ?_⟩
          simp only [List.mem_cons, not_or]
          refine ⟨?_, hx2⟩
          intro hxi
          have hne := List.find?_eq_none.mp h x hx1
          simp [hxi] at hne
      | some q =>
          have hstep : (deletePost s i).2.posts =
              s.posts.filter (fun p => !(p.id == i)) := by
            simp [deletePost, getPost, h]
          rw [hstep] at hx1
          obtain ⟨hmem, hcond⟩ := List.mem_filter.mp hx1
          simp only [Bool.not_eq_true', beq_eq_false_iff_ne, ne_eq] at hcond
          refine ⟨hmem, ?_⟩
          simp only [List.mem_cons, not_or]
          exact ⟨hcond, hx2⟩

theorem deletePostsFold_likes_mem (ids : List Nat) : ∀ (s : Store) (x : Like),
    x ∈ (deletePostsFold ids s).likes → x ∈ s.likes := by
  induction ids with
  | nil => intro s x hx; exact hx
  | cons i ids ih =>
      intro s x hx
      have hx1 := ih (deletePost s i).2 x hx
      cases h : List.find? (fun q => q.id == i) s.posts with
      | none =>
          have hstep : (deletePost s i).2 = s := by simp [deletePost, getPost, h]
          rwa [hstep] at hx1
      | some q =>
          have hstep : (deletePost s i).2.likes =
              s.likes.filter (fun l => !(l.postId == i)) := by
            simp [deletePost, getPost, h]
          rw [hstep] at hx1
          exact (List.mem_filter.mp hx1).1

theorem deletePostsFold_comments_mem (ids : List Nat) : ∀ (s : Store) (x : Comment),
    x ∈ (deletePostsFold ids s).comments → x ∈ s.comments := by
  induction ids with
  | nil => intro s x hx; exact hx
  | cons i ids ih =>
      intro s x hx
      have hx1 := ih (deletePost s i).2 x hx
      cases h : List.find? (fun q => q.id == i) s.posts with
      | none =>
          have hstep : (deletePost s i).2 = s := by simp [deletePost, getPost, h]
          rwa [hstep] at hx1
      | some q =>
          have hstep : (deletePost s i).2.comments =
              s.comments.filter (fun c => !(c.postId == i)) := by
            simp [deletePost, getPost, h]
          rw [hstep] at hx1
          exact (List.mem_filter.mp hx1).1

theorem deletePostsFold_likes_gone (ids : List Nat) : ∀ (s : Store) (i : Nat),
    i ∈ ids → (∃ p ∈ s.posts, p.id = i) →
    ∀ x ∈ (deletePostsFold ids s).likes, x.postId ≠ i := by
  induction ids with
  | nil => intro s i hi; exact absurd hi (by simp)
  | cons j ids ih =>
      intro s i hi hex x hx
      by_cases hij : i = j
      · subst hij
        obtain ⟨p, hp, hpid⟩ := hex
        have hfind : (List.find? (fun q => q.id == i) s.posts).isSome := by
          rw [List.find?_isSome]
          exact ⟨p, hp, by simp [hpid]⟩
        obtain ⟨q, hq⟩ := Option.isSome_iff_exists.mp hfind
        have hstep : (deletePost s i).2.likes =
            s.likes.filter (fun l => !(l.postId == i)) := by
          simp [deletePost, getPost, hq]
        have hx1 := deletePostsFold_likes_mem ids (deletePost s i).2 x hx
        rw [hstep] at hx1
        have hcond := (List.mem_filter.mp hx1).2
        simpa [Bool.not_eq_true'] using hcond
      · have hi' : i ∈ ids := by
          rcases List.mem_cons.mp hi with h' | h'
          · exact absurd h' hij
          · exact h'
        obtain ⟨p, hp, hpid⟩ := hex
        have hex' : ∃ p ∈ (deletePost s j).2.posts, p.id = i := by
          cases h : List.find? (fun q => q.id == j) s.posts with
          | none =>
              have hstep : (deletePost s j).2 = s := by simp [deletePost, getPost, h]
              rw [hstep]
              exact ⟨p, hp, hpid⟩
          | some q =>
              have hstep : (deletePost s j).2.posts =
                  s.posts.filter (fun r => !(r.id == j)) := by
                simp [deletePost, getPost, h]
              rw [hstep]
              refine ⟨p, List.mem_filter.mpr ⟨hp, ?_⟩, hpid⟩
              simp [hpid, hij]
        exact ih (deletePost s j).2 i hi' hex' x hx

theorem deletePostsFold_comments_gone (ids : List Nat) : ∀ (s : Store) (i : Nat),
    i ∈ ids → (∃ p ∈ s.posts, p.id = i) →
    ∀ x ∈ (deletePostsFold ids s).comments, x.postId ≠ i := by
  induction ids with
  | nil => intro s i hi; exact absurd hi (by simp)
  | cons j ids ih =>
      intro s i hi hex x hx
      by_cases hij : i = j
      · subst hij
        obtain ⟨p, hp, hpid⟩ := hex
        have hfind : (List.find? (fun q => q.id == i) s.posts).isSome := by
          rw [List.find?_isSome]
          exact ⟨p, hp, by simp [hpid]⟩
        obtain ⟨q, hq⟩ := Option.isSome_iff_exists.mp hfind
        have hstep : (deletePost s i).2.comments =
            s.comments.filter (fun c => !(c.postId == i)) := by
          simp [deletePost, getPost, hq]
        have hx1 := deletePostsFold_comments_mem ids (deletePost s i).2 x hx
        rw [hstep] at hx1
        have hcond := (List.mem_filter.mp hx1).2
        simpa [Bool.not_eq_true'] using hcond
      · have hi' : i ∈ ids := by
          rcases List.mem_cons.mp hi with h' | h'
          · exact absurd h' hij
          · exact h'
        obtain ⟨p, hp, hpid⟩ := hex
        have hex' : ∃ p ∈ (deletePost s j).2.posts, p.id = i := by
          cases h : List.find? (fun q => q.id == j) s.posts with
          | none =>
              have hstep : (deletePost s j).2 = s := by simp [deletePost, getPost, h]
              rw [hstep]
              exact ⟨p, hp, hpid⟩
          | some q =>
              have hstep : (deletePost s j).2.posts =
                  s.posts.filter (fun r => !(r.id == j)) := by
                simp [deletePost, getPost, h]
              rw [hstep]
              refine ⟨p, List.mem_filter.mpr ⟨hp, ?_⟩, hpid⟩
              simp [hpid, hij]
        exact ih (deletePost s j).2 i hi' hex' x hx

/-! ### Counter invariants over the operations -/

theorem likeIdsOk_applyOp {s : Store} (h : LikeIdsOk s) :
    ∀ op : StoreOp, LikeIdsOk (applyOp s op) := by
  intro op
  cases op with
  | opCreateUser ins now => exact h
  | opUpdateUser id upd =>
      simp only [applyOp, updateUser]
      split <;> exact h
  | opDeleteUser id =>
      simp only [applyOp, deleteUser]
      split
      · exact h
      · intro l hl
        have hl1 := (List.mem_filter.mp hl).1
        have hl2 := deletePostsFold_likes_mem _ _ l hl1
        rw [(deletePostsFold_frame _ _).2.2.2.2.1]
        exact h l hl2
  | opCreatePost ins now => exact h
  | opUpdatePost id content =>
      simp only [applyOp, updatePost]
      split <;> exact h
  | opDeletePost id =>
      simp only [applyOp, deletePost, getPost]
      split
      · exact h
      · intro l hl
        exact h l (List.mem_filter.mp hl).1
  | opCreateLike ins now =>
      intro l hl
      rcases mem_setById hl with rfl | hmem
      · exact Nat.lt_succ_self _
      · exact Nat.lt_succ_of_lt (h l hmem)
  | opRemoveLike userId postId =>
      simp only [applyOp, removeLike]
      split
      · intro l hl
        exact h l (List.mem_filter.mp hl).1
      · exact h
  | opCreateComment ins now => exact h
  | opCreateFriendRequest ins now => exact h
  | opAcceptFriendRequest id =>
      simp only [applyOp, acceptFriendRequest]
      split <;> exact h
  | opRejectFriendRequest id =>
      simp only [applyOp, rejectFriendRequest]
      split <;> exact h
  | opToggleUserBanStatus id =>
      simp only [applyOp, toggleUserBanStatus]
      split <;> exact h
  | opSavePost userId postId =>
      simp only [applyOp, savePost]
      split <;> exact h
  | opUnsavePost userId postId =>
      simp only [applyOp, unsavePost]
      split <;> exact h
  | opCreateStory userId media now => exact h

theorem likeIdsOk_runOps (ops : List StoreOp) : LikeIdsOk (runOps ops) := by
  have main : ∀ (l : List StoreOp) (s : Store),
      LikeIdsOk s → LikeIdsOk (l.foldl applyOp s) := by
    intro l
    induction l with
    | nil => intro s hs; exact hs
    | cons op ops ih => intro s hs; exact ih _ (likeIdsOk_applyOp hs op)
  exact main ops emptyStore (by intro l hl; exact absurd hl (by simp [emptyStore]))

theorem friendIdsOk_applyOp {s : Store} (h : FriendIdsOk s) :
    ∀ op : StoreOp, FriendIdsOk (applyOp s op) := by
  intro op
  cases op with
  | opCreateUser ins now => exact h
  | opUpdateUser id upd =>
      simp only [applyOp, updateUser]
      split <;> exact h
  | opDeleteUser id =>
      simp only [applyOp, deleteUser]
      split
      · exact h
      · intro f hf
        have hf1 := (List.mem_filter.mp hf).1
        rw [(deletePostsFold_frame _ _).2.1] at hf1
        rw [(deletePostsFold_frame _ _).2.2.2.2.2]
        exact h f hf1
  | opCreatePost ins now => exact h
  | opUpdatePost id content =>
      simp only [applyOp, updatePost]
      split <;> exact h
  | opDeletePost id =>
      simp only [applyOp, deletePost, getPost]
      split <;> exact h
  | opCreateLike ins now => exact h
  | opRemoveLike userId postId =>
      simp only [applyOp, removeLike]
      split <;> exact h
  | opCreateComment ins now => exact h
  | opCreateFriendRequest ins now =>
      intro f hf
      rcases mem_setById hf with rfl | hmem
      · exact Nat.lt_succ_self _
      · exact Nat.lt_succ_of_lt (h f hmem)
  | opAcceptFriendRequest id =>
      simp only [applyOp, acceptFriendRequest]
      split
      · rename_i friend heq
        intro f hf
        rcases mem_setById hf with rfl | hmem
        · exact h friend (List.mem_of_find?_eq_some heq)
        · exact h f hmem
      · exact h
  | opRejectFriendRequest id =>
      simp only [applyOp, rejectFriendRequest]
      split
      · rename_i friend heq
        intro f hf
        rcases mem_setById hf with rfl | hmem
        · exact h friend (List.mem_of_find?_eq_some heq)
        · exact h f hmem
      · exact h
  | opToggleUserBanStatus id =>
      simp only [applyOp, toggleUserBanStatus]
      split <;> exact h
  | opSavePost userId postId =>
      simp only [applyOp, savePost]
      split <;> exact h
  | opUnsavePost userId postId =>
      simp only [applyOp, unsavePost]
      split <;> exact h
  | opCreateStory userId media now => exact h

theorem friendIdsOk_runOps (ops : List StoreOp) : FriendIdsOk (runOps ops) := by
  have main : ∀ (l : List StoreOp) (s : Store),
      FriendIdsOk s → FriendIdsOk (l.foldl applyOp s) := by
    intro l
    induction l with
    | nil => intro s hs; exact hs
    | cons op ops ih => intro s hs; exact ih _ (friendIdsOk_applyOp hs op)
  exact main ops emptyStore (by intro f hf; exact absurd hf (by simp [emptyStore]))

/-! ### C2: createLike does not deduplicate -/

/-- C2 (amended): the store does not enforce the at-most-one-like-per-pair
invariant before insertion.  In every store whose like ids are below the
counter (true of all reachable states, first conjunct), `createLike`
unconditionally appends a fresh `Like` with the next id; if a like for the
same (user, post) pair is already present it remains present and the new
record is a second, distinct record for that pair.  Deduplication is the
caller's responsibility via `getLike`. -/
theorem createLike_spec (s : Store) (ins : InsertLike) (now : Nat)
    (h : LikeIdsOk s) :
    (∀ ops : List StoreOp, LikeIdsOk (runOps ops)) ∧
    (createLike s ins now).2.likes = s.likes ++ [(createLike s ins now).1] ∧
    (∀ l ∈ s.likes, l.userId = ins.userId → l.postId = ins.postId →
      l ∈ (createLike s ins now).2.likes ∧
      (createLike s ins now).1 ≠ l ∧
      (createLike s ins now).1.userId = ins.userId ∧
      (createLike s ins now).1.postId = ins.postId) := by
  have happ : (createLike s ins now).2.likes =
      s.likes ++ [(createLike s ins now).1] := by
    apply setById_eq_append
    intro x hx
    exact Nat.ne_of_lt (h x hx)
  refine ⟨likeIdsOk_runOps, happ, ?_⟩
  intro l hl hu hp
  refine ⟨by rw [happ]; exact List.mem_append_left _ hl, ?_, rfl, rfl⟩
  intro heq
  have hid : (createLike s ins now).1.id = l.id := by rw [heq]
  have hlt : l.id < s.currentLikeId := h l hl
  rw [show (createLike s ins now).1.id = s.currentLikeId from rfl] at hid
  omega

/-- C2 counterexample: `c2store` is reachable and already stores a like by
user 2 on post 1; calling `createLike` for the same pair yields a state with
two distinct like records for (2, 1), refuting the claimed invariant. -/
theorem createLike_dup_cex :
    (((createLike c2store ⟨2, 1⟩ 5).2.likes.filter
      (fun l => l.userId == 2 && l.postId == 1)).map (fun l => l.id)) = [1, 2] ∧
    (∃ l1 ∈ (createLike c2store ⟨2, 1⟩ 5).2.likes,
     ∃ l2 ∈ (createLike c2store ⟨2, 1⟩ 5).2.likes,
      l1 ≠ l2 ∧ l1.userId = 2 ∧ l1.postId = 1 ∧ l2.userId = 2 ∧ l2.postId = 1) := by
  decide

/-- C2 witness: `createLike_spec` applied at the reachable store `c2store`,
whose like-id bound holds by computation. -/
theorem createLike_witness :
    (createLike c2store ⟨2, 1⟩ 5).2.likes =
      c2store.likes ++ [(createLike c2store ⟨2, 1⟩ 5).1] ∧
    (createLike c2store ⟨2, 1⟩ 5).1 ≠ { id := 1, userId := 2, postId := 1, createdAt := 4 } := by
  have h := createLike_spec c2store ⟨2, 1⟩ 5
    (by show ∀ l ∈ c2store.likes, l.id < c2store.currentLikeId; decide)
  refine ⟨h.2.1, ?_⟩
  exact (h.2.2 { id := 1, userId := 2, postId := 1, createdAt := 4 }
    (by decide) rfl rfl).2.1

/-! ### C5: friend edge status transitions -/

theorem pending_persist {s : Store} (hInv : FriendIdsOk s) (op : StoreOp) :
    ∀ e ∈ (applyOp s op).friends, e.status = "pending" →
      (∃ e0 ∈ s.friends, e0.id = e.id ∧ e0.status = "pending") ∨
      (∀ e0 ∈ s.friends, e0.id ≠ e.id) := by
  intro e he hst
  cases op with
  | opCreateUser ins now => exact Or.inl ⟨e, he, rfl, hst⟩
  | opUpdateUser id upd =>
      left
      refine ⟨e, ?_, rfl, hst⟩
      revert he
      simp only [applyOp, updateUser]
      split <;> exact fun he => he
  | opDeleteUser id =>
      left
      refine ⟨e, ?_, rfl, hst⟩
      revert he
      simp only [applyOp, deleteUser]
      split
      · exact fun he => he
      · intro he
        have he1 := (List.mem_filter.mp he).1
        rwa [(deletePostsFold_frame _ _).2.1] at he1
  | opCreatePost ins now => exact Or.inl ⟨e, he, rfl, hst⟩
  | opUpdatePost id content =>
      left
      refine ⟨e, ?_, rfl, hst⟩
      revert he
      simp only [applyOp, updatePost]
      split <;> exact fun he => he
  | opDeletePost id =>
      left
      refine ⟨e, ?_, rfl, hst⟩
      revert he
      simp only [applyOp, deletePost, getPost]
      split <;> exact fun he => he
  | opCreateLike ins now => exact Or.inl ⟨e, he, rfl, hst⟩
  | opRemoveLike userId postId =>
      left
      refine ⟨e, ?_, rfl, hst⟩
      revert he
      simp only [applyOp, removeLike]
      split <;> exact fun he => he
  | opCreateComment ins now => exact Or.inl ⟨e, he, rfl, hst⟩
  | opCreateFriendRequest ins now =>
      rcases mem_setById he with rfl | hmem
      · right
        intro e0 he0
        exact Nat.ne_of_lt (hInv e0 he0)
      · exact Or.inl ⟨e, hmem, rfl, hst⟩
  | opAcceptFriendRequest id =>
      left
      revert he
      simp only [applyOp, acceptFriendRequest]
      split
      · intro he
        rcases mem_setById he with rfl | hmem
        · exact absurd hst (show ¬("accepted" = "pending") by decide)
        · exact ⟨e, hmem, rfl, hst⟩
      · intro he
        exact ⟨e, he, rfl, hst⟩
  | opRejectFriendRequest id =>
      left
      revert he
      simp only [applyOp, rejectFriendRequest]
      split
      · intro he
        rcases mem_setById he with rfl | hmem
        · exact absurd hst (show ¬("rejected" = "pending") by decide)
        · exact ⟨e, hmem, rfl, hst⟩
      · intro he
        exact ⟨e, he, rfl, hst⟩
  | opToggleUserBanStatus id =>
      left
      refine ⟨e, ?_, rfl, hst⟩
      revert he
      simp only [applyOp, toggleUserBanStatus]
      split <;> exact fun he => he
  | opSavePost userId postId =>
      left
      refine ⟨e, ?_, rfl, hst⟩
      revert he
      simp only [applyOp, savePost]
      split <;> exact fun he => he
  | opUnsavePost userId postId =>
      left
      refine ⟨e, ?_, rfl, hst⟩
      revert he
      simp only [applyOp, unsavePost]
      split <;> exact fun he => he
  | opCreateStory userId media now => exact Or.inl ⟨e, he, rfl, hst⟩

/-- C5 (amended): over every reachable state, no operation ever turns an
existing edge back to status `"pending"` (a pending edge in the next state
was already pending, or is newly created); `createFriendRequest` gives the
new edge the caller-supplied status when one is supplied and only defaults a
missing status to `"pending"`; and `acceptFriendRequest` /
`rejectFriendRequest` set the status of any present edge to `"accepted"` /
`"rejected"` regardless of its current status (in particular a rejected edge
can be accepted). -/
theorem friendStatusMachine (ops : List StoreOp) (op : StoreOp) :
    (∀ e ∈ (applyOp (runOps ops) op).friends, e.status = "pending" →
      (∃ e0 ∈ (runOps ops).friends, e0.id = e.id ∧ e0.status = "pending") ∨
      (∀ e0 ∈ (runOps ops).friends, e0.id ≠ e.id)) ∧
    (∀ (s : Store) (ins : InsertFriend) (now : Nat),
      ((createFriendRequest s ins now).1).status = ins.status.getD "pending") ∧
    (∀ (s : Store) (id : Nat) (e : Friend),
      s.friends.find? (fun f => f.id == id) = some e →
      (acceptFriendRequest s id).1 = some { e with status := "accepted" } ∧
      (rejectFriendRequest s id).1 = some { e with status := "rejected" }) := by
  refine ⟨pending_persist (friendIdsOk_runOps ops) op, fun s ins now => rfl, ?_⟩
  intro s id e he
  constructor
  · simp [acceptFriendRequest, he]
  · simp [rejectFriendRequest, he]

/-- C5 counterexample: in reachable states, `createFriendRequest` creates an
edge directly with status `"accepted"` when the insert payload carries that
status (never passing through pending), and `acceptFriendRequest` applied to
the rejected edge of `c5store` succeeds and turns it accepted — both
transitions are outside the claimed `none → pending → {accepted, rejected}`
machine. -/
theorem friendStatusMachine_cex :
    ((createFriendRequest (runOps [.opCreateUser insAlice 1, .opCreateUser insBob 2])
        ⟨1, 2, some "accepted"⟩ 3).1.status = "accepted") ∧
    ((c5store.friends.map (fun f => f.status)) = ["rejected"]) ∧
    (((acceptFriendRequest c5store 1).1).map (fun f => f.status) = some "accepted") := by
  decide

/-- C5 witness: `friendStatusMachine` applied with a concrete omitted status
(defaulting to pending) and at the concrete rejected edge of `c5store`. -/
theorem friendStatusMachine_witness :
    ((createFriendRequest emptyStore ⟨1, 2, none⟩ 5).1.status =
      (none : Option String).getD "pending") ∧
    (acceptFriendRequest c5store 1).1 =
      some { id := 1, userId := 1, friendId := 2, status := "accepted", createdAt := 3 } := by
  refine ⟨(friendStatusMachine [] (.opCreateUser insAlice 1)).2.1 emptyStore ⟨1, 2, none⟩ 5, ?_⟩
  have h := (friendStatusMachine [] (.opCreateUser insAlice 1)).2.2 c5store 1
    { id := 1, userId := 1, friendId := 2, status := "rejected", createdAt := 3 } (by decide)
  exact h.1

/-! ### C9: deleteUser leaves stories and saved posts untouched -/

/-- C9: `deleteUser` never modifies the stories collection or the saved-posts
collection — they are equal before and after, for present and absent ids
alike; only the users, posts, likes, comments and friend-edge collections are
touched. -/
theorem deleteUser_saved_stories_frame (s : Store) (u : Nat) :
    (deleteUser s u).2.savedPosts = s.savedPosts ∧
    (deleteUser s u).2.stories = s.stories := by
  simp only [deleteUser]
  split
  · exact ⟨rfl, rfl⟩
  · exact ⟨(deletePostsFold_frame _ _).2.2.1, (deletePostsFold_frame _ _).2.2.2.1⟩

/-! ### C4: deleteUser cascade -/

theorem mem_postIds_getPostsByUser {s : Store} {u : Nat} {p : Post}
    (hp : p ∈ s.posts) (hpu : p.userId = u) :
    p.id ∈ (getPostsByUser s u).map (fun v => v.post.id) := by
  simp only [getPostsByUser]
  rw [List.map_map]
  refine List.mem_map.mpr ⟨p, ?_, rfl⟩
  exact mem_stableSort.mpr (List.mem_filter.mpr ⟨hp, by simp [hpu]⟩)

/-- C4: for a present user id `u`, `deleteUser` returns `true` and afterwards
the user is gone, no post authored by `u` remains, no like or comment
authored by `u` remains (also on other users' posts), no friend edge with `u`
on either side remains, and the cascade removed every like and comment on
`u`'s former posts; for an absent id it returns `false` and leaves the store
unchanged. -/
theorem deleteUser_spec (s : Store) (u : Nat) :
    ((getUser s u).isSome →
      (deleteUser s u).1 = true ∧
      getUser (deleteUser s u).2 u = none ∧
      (∀ p ∈ (deleteUser s u).2.posts, p.userId ≠ u) ∧
      (∀ l ∈ (deleteUser s u).2.likes, l.userId ≠ u) ∧
      (∀ c ∈ (deleteUser s u).2.comments, c.userId ≠ u) ∧
      (∀ f ∈ (deleteUser s u).2.friends, f.userId ≠ u ∧ f.friendId ≠ u) ∧
      (∀ l ∈ (deleteUser s u).2.likes, ∀ p ∈ s.posts, p.userId = u → l.postId ≠ p.id) ∧
      (∀ c ∈ (deleteUser s u).2.comments, ∀ p ∈ s.posts, p.userId = u → c.postId ≠ p.id)) ∧
    (getUser s u = none → deleteUser s u = (false, s)) := by
  constructor
  · intro h
    obtain ⟨w, hw⟩ := Option.isSome_iff_exists.mp h
    simp only [getUser] at hw
    simp only [deleteUser, getUser, hw]
    refine ⟨by trivial, ?_, ?_, ?_, ?_, ?_, ?_, ?_⟩
    · -- the user record is gone
      rw [(deletePostsFold_frame _ _).1, List.find?_eq_none]
      intro x hx
      have hx2 := (List.mem_filter.mp hx).2
      simp only [Bool.not_eq_true'] at hx2
      simp [hx2]
    · -- no post authored by u remains
      intro p hp hpu
      obtain ⟨hp1, hp2⟩ := deletePostsFold_posts_mem _ _ p hp
      exact hp2 (mem_postIds_getPostsByUser hp1 hpu)
    · -- no like authored by u remains
      intro l hl hlu
      have hl2 := (List.mem_filter.mp hl).2
      simp [hlu] at hl2
    · -- no comment authored by u remains
      intro c hc hcu
      have hc2 := (List.mem_filter.mp hc).2
      simp [hcu] at hc2
    · -- no friend edge with u remains
      intro f hf
      have hf2 := (List.mem_filter.mp hf).2
      simp only [Bool.not_eq_true', Bool.or_eq_false_iff, beq_eq_false_iff_ne, ne_eq] at hf2
      exact hf2
    · -- cascade: no like on one of u's former posts remains
      intro l hl p hp hpu
      have hl1 := (List.mem_filter.mp hl).1
      refine deletePostsFold_likes_gone _ _ p.id ?_ ?_ l hl1
      · exact mem_postIds_getPostsByUser hp hpu
      · exact ⟨p, hp, rfl⟩
    · -- cascade: no comment on one of u's former posts remains
      intro c hc p hp hpu
      have hc1 := (List.mem_filter.mp hc).1
      refine deletePostsFold_comments_gone _ _ p.id ?_ ?_ c hc1
      · exact mem_postIds_getPostsByUser hp hpu
      · exact ⟨p, hp, rfl⟩
  · intro h
    simp only [getUser] at h
    simp [deleteUser, getUser, h]

/-- C4 witness: `deleteUser_spec` applied at the populated reachable store
`c4store` (user 1 present) and at the absent id 99. -/
theorem deleteUser_witness :
    (deleteUser c4store 1).1 = true ∧
    getUser (deleteUser c4store 1).2 1 = none ∧
    deleteUser c4store 99 = (false, c4store) := by
  obtain ⟨h1, h2, _⟩ := (deleteUser_spec c4store 1).1 (by decide)
  exact ⟨h1, h2, (deleteUser_spec c4store 99).2 (by decide)⟩

/-! ### C3: feed construction -/

theorem contains_append_singleton (L : List Nat) (a x : Nat) :
    (L ++ [a]).contains x = (L.contains x || x == a) := by
  induction L with
  | nil => simp [List.contains_cons, Bool.beq_eq_decide_eq]
  | cons y ys ih => simp [List.contains_cons, ih, Bool.or_assoc, Bool.beq_eq_decide_eq]

theorem feedFilter_eq (s : Store) (u : Nat) :
    (s.posts.filter (fun p =>
      ((List.map (fun fw : FriendWithUser =>
          if fw.friend.userId == u then fw.friend.friendId else fw.friend.userId)
        (getFriends s u)) ++ [u]).contains p.userId)) =
    s.posts.filter (fun p => visibleInFeed s u p) := by
  apply List.filter_congr
  intro p _
  rw [contains_append_singleton]
  simp only [getFriends]
  rw [List.map_map]
  show ((List.map (fun f : Friend => if f.userId == u then f.friendId else f.userId)
      (List.filter (fun f => f.status == "accepted" && (f.userId == u || f.friendId == u))
        s.friends)).contains p.userId || (p.userId == u)) = visibleInFeed s u p
  rw [contains_map_filter (fun f hf => feed_otherParty_eq hf)
      (fun f hf => acceptedPred_false hf), Bool.or_comm]
  rfl

theorem map_post_enrichFeed (s : Store) (u : Nat) (X : List Post) :
    (X.map (enrichFeedPost s u)).map (fun v => v.post) = X := by
  rw [List.map_map]
  exact List.map_id'' (fun q => rfl) X

/-- C3 (amended): `getPostsForFeed u` contains exactly the posts authored by
`u` or by a user connected to `u` by an accepted friend edge (either
direction), sorted by creation timestamp descending; posts with equal
timestamps keep their insertion (id) order *ascending*, because the sort is
stable (the claim said descending). -/
theorem getPostsForFeed_spec (s : Store) (u : Nat) :
    (∀ p : Post, (∃ v ∈ getPostsForFeed s u, v.post = p) ↔
      (p ∈ s.posts ∧ visibleInFeed s u p = true)) ∧
    ((getPostsForFeed s u).map (fun v => v.post.createdAt)).Pairwise
      (fun a b => b ≤ a) ∧
    (∀ t : Nat, ((getPostsForFeed s u).map (fun v => v.post)).filter
        (fun p => p.createdAt == t) =
      s.posts.filter (fun p => visibleInFeed s u p && p.createdAt == t)) := by
  have hfeed : getPostsForFeed s u =
      (stableSort postTimeDesc (s.posts.filter (fun p => visibleInFeed s u p))).map
        (enrichFeedPost s u) := by
    simp only [getPostsForFeed]
    rw [feedFilter_eq]
  refine ⟨?_, ?_, ?_⟩
  · intro p
    rw [hfeed]
    constructor
    · rintro ⟨v, hv, rfl⟩
      obtain ⟨q, hq, rfl⟩ := List.mem_map.mp hv
      exact List.mem_filter.mp (mem_stableSort.mp hq)
    · rintro ⟨hp, hvis⟩
      exact ⟨enrichFeedPost s u p,
        List.mem_map_of_mem _ (mem_stableSort.mpr (List.mem_filter.mpr ⟨hp, hvis⟩)), rfl⟩
  · rw [hfeed, List.map_map]
    have hs := pairwise_stableSort postTimeDesc_trans postTimeDesc_total
      (s.posts.filter (fun p => visibleInFeed s u p))
    exact hs.map _ (fun a b hab => by
      simp only [postTimeDesc, decide_eq_true_eq] at hab
      exact hab)
  · intro t
    rw [hfeed, map_post_enrichFeed]
    rw [filter_stableSort_ties (fun a b ha hb => by
      simp only [beq_iff_eq] at ha hb
      simp [postTimeDesc, ha, hb])]
    rw [List.filter_filter]
    apply List.filter_congr
    intro a _
    rw [Bool.and_comm]

/-- C3 counterexample: in the reachable store `c3store`, posts 1 and 2 share
the creation timestamp 5 and the feed of user 1 returns them in ascending
insertion order [(1, 5), (2, 5)], not in the claimed descending id order
[(2, 5), (1, 5)]. -/
theorem getPostsForFeed_cex :
    (getPostsForFeed c3store 1).map (fun v => (v.post.id, v.post.createdAt)) =
      [(1, 5), (2, 5)] ∧
    ([(1, 5), (2, 5)] : List (Nat × Nat)) ≠ [(2, 5), (1, 5)] := by decide

/-- C3 witness: `getPostsForFeed_spec` applied at `c3store` for user 1 and
post 1 (present and visible) and for timestamp 5. -/
theorem getPostsForFeed_witness :
    ((∃ v ∈ getPostsForFeed c3store 1,
        v.post = { id := 1, userId := 1, content := "x", image := none, createdAt := 5 }) ↔
      ({ id := 1, userId := 1, content := "x", image := none, createdAt := 5 } ∈ c3store.posts ∧
        visibleInFeed c3store 1 { id := 1, userId := 1, content := "x", image := none, createdAt := 5 } = true)) ∧
    (((getPostsForFeed c3store 1).map (fun v => v.post)).filter
        (fun p => p.createdAt == 5) =
      c3store.posts.filter (fun p => visibleInFeed c3store 1 p && p.createdAt == 5)) := by
  exact ⟨(getPostsForFeed_spec c3store 1).1 _, (getPostsForFeed_spec c3store 1).2.2 5⟩

/-! ### C10: saved posts skip deleted posts silently -/

theorem getSavedPosts_ids (s : Store) : ∀ ids : List Nat,
    (((ids.map (fun postId => (getPost s postId).map (enrichSavedPost s postId))).reduceOption).map
      (fun v => v.post.id)) = ids.filter (fun i => (getPost s i).isSome) := by
  intro ids
  induction ids with
  | nil => rfl
  | cons i rest ih =>
      cases hp : getPost s i with
      | none => simp [hp, List.reduceOption_cons_of_none, ih]
      | some q =>
          have hp' := hp
          simp only [getPost] at hp'
          have hqid : q.id = i := by
            have := List.find?_some hp'
            simpa using this
          simp [hp, List.reduceOption_cons_of_some, ih, enrichSavedPost, hqid]

/-- C10: `getSavedPosts u` returns the enriched views of exactly those saved
post ids of `u` whose post still exists, in the saved order — ids whose post
was deleted are silently skipped (no error, no not-found signal) — and a user
with no saved entry gets the empty list. -/
theorem getSavedPosts_spec (s : Store) (u : Nat) :
    (getSavedPosts s u).map (fun v => v.post.id) =
      (savedIdsOf s u).filter (fun i => (getPost s i).isSome) ∧
    getSavedPosts s u =
      (savedIdsOf s u).filterMap (fun i => (getPost s i).map (enrichSavedPost s i)) ∧
    (s.savedPosts.find? (fun e => e.1 == u) = none → getSavedPosts s u = []) := by
  refine ⟨getSavedPosts_ids s (savedIdsOf s u), ?_, ?_⟩
  · show ((savedIdsOf s u).map
        (fun postId => (getPost s postId).map (enrichSavedPost s postId))).reduceOption = _
    rw [List.reduceOption, List.filterMap_map]
    rfl
  · intro h
    simp [getSavedPosts, savedIdsOf, h]

/-- C10 witness: `getSavedPosts_spec` applied at `c10store`, where user 1
saved posts 1 and 2 and post 1 was deleted (so only post 2 is returned), and
user 2 has no saved entry. -/
theorem getSavedPosts_witness :
    (getSavedPosts c10store 1).map (fun v => v.post.id) =
      (savedIdsOf c10store 1).filter (fun i => (getPost c10store i).isSome) ∧
    (getSavedPosts c10store 1).map (fun v => v.post.id) = [2] ∧
    getSavedPosts c10store 2 = [] := by
  refine ⟨(getSavedPosts_spec c10store 1).1, by decide, ?_⟩
  exact (getSavedPosts_spec c10store 2).2.2 (by decide)
